import Mathlib

/-!
Verification development for the `secsgml-rust` SEC EDGAR SGML parser.

The definitions below are a shallow embedding of the Rust sources.  Byte
buffers (`&[u8]`, `Vec<u8>`) are modelled as `List Nat` (each element a byte
value `< 256`; the code never relies on values `≥ 256` and all arithmetic
that can wrap in `u8` is modelled with an explicit `% 256`).  Strings that
the Rust code produces with `String::from_utf8_lossy` are kept as their raw
byte lists: all keys the claims mention are plain ASCII, where the lossy
conversion is the identity.  Hash maps (`HashMap`, `FxHashMap`) are modelled
as association lists with in-place update, which models `insert`, `entry`
and `get`/`get_mut` lookup semantics exactly (iteration order of the Rust
hash maps is *not* modelled; see the discussion of claim C3).

The primary embedding follows `src/src/byte_parser.rs` together with
`src/src/uu_decoder.rs` and `src/src/types.rs` (the byte-level parser, which
the repository's own design notes single out as the reference
implementation).  The line-based helpers from `src/src/utils.rs` and the
string fallback UU decoder from `src/secsgml/src/uu_decode.rs` are embedded
separately where claims cite them.
-/

/-! ## Byte-string utilities (L0)

`leadsWith pat l` is `true` iff `pat` is an initial segment of `l`; it
models the byte comparisons `&data[i..i+pat.len()] == pat` (guarded by the
length check) that the Rust code performs. -/

def leadsWith : List Nat → List Nat → Bool
  | [], _ => true
  | _ :: _, [] => false
  | p :: ps, b :: bs => p == b && leadsWith ps bs

/-- Structural literal "<DOCUMENT>". -/
def DOCUMENT_OPEN : List Nat := [60, 68, 79, 67, 85, 77, 69, 78, 84, 62]

/-- Structural literal "</DOCUMENT>". -/
def DOCUMENT_CLOSE : List Nat := [60, 47, 68, 79, 67, 85, 77, 69, 78, 84, 62]

/-- Structural literal "<TEXT>". -/
def TEXT_OPEN : List Nat := [60, 84, 69, 88, 84, 62]

/-- Structural literal "</TEXT>". -/
def TEXT_CLOSE : List Nat := [60, 47, 84, 69, 88, 84, 62]

/-- Dialect marker "<SUBMISSION>". -/
def SUBMISSION : List Nat := [60, 83, 85, 66, 77, 73, 83, 83, 73, 79, 78, 62]

/-- Dialect marker "<SEC-DOCUMENT>". -/
def SEC_DOCUMENT : List Nat := [60, 83, 69, 67, 45, 68, 79, 67, 85, 77, 69, 78, 84, 62]

/-- Dialect marker "-----BEGIN PRIVACY-ENHANCED MESSAGE-----". -/
def PRIVACY_MSG : List Nat :=
  [45, 45, 45, 45, 45, 66, 69, 71, 73, 78, 32,
   80, 82, 73, 86, 65, 67, 89, 45, 69, 78, 72, 65, 78, 67, 69, 68, 32,
   77, 69, 83, 83, 65, 71, 69, 45, 45, 45, 45, 45]

/-- The byte string "begin" (UU-encoding start marker). -/
def beginBytes : List Nat := [98, 101, 103, 105, 110]

/-- The byte string "end" (UU-encoding end marker). -/
def endBytes : List Nat := [101, 110, 100]

/-- The metadata key "documents" (ASCII bytes). -/
def docsKey : List Nat := [100, 111, 99, 117, 109, 101, 110, 116, 115]

/-- The key "privacy-enhanced-message" (ASCII bytes). -/
def privacyKey : List Nat :=
  [112, 114, 105, 118, 97, 99, 121, 45, 101, 110, 104, 97, 110, 99, 101, 100,
   45, 109, 101, 115, 115, 97, 103, 101]

/-- Special payload wrapper "<PDF>". -/
def PDF_TAG : List Nat := [60, 80, 68, 70, 62]

/-- Special payload wrapper "<XBRL>". -/
def XBRL_TAG : List Nat := [60, 88, 66, 82, 76, 62]

/-- Special payload wrapper "<XML>". -/
def XML_TAG : List Nat := [60, 88, 77, 76, 62]

/-- Scan a suffix of the buffer for the first match of `pat`, returning the
absolute position (the suffix starts at absolute position `i`).  This models
`memmem::find`. -/
def scanFor (pat : List Nat) : List Nat → Nat → Option Nat
  | [], i => if leadsWith pat [] then some i else none
  | b :: rest, i => if leadsWith pat (b :: rest) then some i else scanFor pat rest (i + 1)

/-- First match of `pat` in `data` (models `memmem::find(data, pat)`). -/
def findSub (pat data : List Nat) : Option Nat := scanFor pat data 0

/-- First match of `pat` in `data` at a position `≥ start` (models
`memmem::find(&data[start..], pat).map(|p| p + start)`). -/
def findSubFrom (pat data : List Nat) (start : Nat) : Option Nat :=
  scanFor pat (data.drop start) start

/-- All match positions of `pat` in `data`.  This models
`memmem::Finder::find_iter`, which yields non-overlapping matches; the
patterns it is used with (`<DOCUMENT>`, `</DOCUMENT>`, `<TEXT>`, `</TEXT>`)
cannot overlap themselves, so the non-overlapping match positions are
exactly all match positions. -/
def occList (pat data : List Nat) : List Nat :=
  (List.range data.length).filter (fun i => leadsWith pat (data.drop i))

/-- ASCII whitespace set used by the byte parser's trim helper
(`src/src/byte_parser.rs`, `TrimAscii`: space, newline, CR, tab) and by the
UU decoder's `trim_ascii` (same four bytes). -/
def isTrimWs (b : Nat) : Bool := b == 32 || b == 9 || b == 13 || b == 10

/-- Models `trim_ascii_start`. -/
def trimBytesStart (l : List Nat) : List Nat := l.dropWhile isTrimWs

/-- Models `trim_ascii_end`. -/
def trimBytesEnd (l : List Nat) : List Nat := (l.reverse.dropWhile isTrimWs).reverse

/-- Models `trim_ascii`. -/
def trimBytes (l : List Nat) : List Nat := trimBytesEnd (trimBytesStart l)

/-- Models `ascii_to_lowercase`: map `A..Z` to `a..z`, leave other bytes alone. -/
def lowerBytes (l : List Nat) : List Nat :=
  l.map (fun b => if 65 ≤ b ∧ b ≤ 90 then b + 32 else b)

/-- Models `index_lines` from `src/src/byte_parser.rs`: split on `\n`, a `\r`
immediately before the `\n` is excluded from the line end, a final line
without `\n` is included.  The auxiliary walks the remaining bytes carrying
the absolute position, the current line start and the previous byte. -/
def indexLinesAux : List Nat → Nat → Nat → Option Nat → List (Nat × Nat)
  | [], pos, lineStart, _ => if lineStart < pos then [(lineStart, pos)] else []
  | b :: rest, pos, lineStart, prev =>
    if b = 10 then
      (lineStart, if prev = some 13 then pos - 1 else pos) ::
        indexLinesAux rest (pos + 1) (pos + 1) (some b)
    else indexLinesAux rest (pos + 1) lineStart (some b)

/-- Models `index_lines data`. -/
def indexLines (data : List Nat) : List (Nat × Nat) := indexLinesAux data 0 0 none

/-- Extract the byte slice `data[s..e]` (total; the Rust code only slices
with `s ≤ e ≤ data.len()`). -/
def sliceBytes (data : List Nat) (s e : Nat) : List Nat := (data.drop s).take (e - s)

/-- Models `parse_tag_content` from `src/src/byte_parser.rs`: find the first `>`,
require it at index `≥ 1`, return the bytes strictly between index 0 and the
`>` (the code assumes, without checking, that index 0 holds `<`) and the
rest of the line after the `>`. -/
def parseTagContent (line : List Nat) : Option (List Nat × List Nat) :=
  match List.findIdx? (fun b => b == 62) line with
  | none => none
  | some tagEnd =>
    if tagEnd < 1 then none
    else some ((line.drop 1).take (tagEnd - 1), line.drop (tagEnd + 1))

/-! ## Metadata model

`MetadataValue` mirrors the Rust enum in `src/src/types.rs`.  `MetaDict`
models the Rust `MetadataDict = HashMap<String, MetadataValue>` as an
association list whose update operations edit entries in place; this gives
the exact `insert` / `entry` / `get` semantics of the hash map.  (It does
not model the hash map's iteration order, which in Rust is arbitrary.) -/

inductive MetadataValue where
  | text : List Nat → MetadataValue
  | list : List MetadataValue → MetadataValue
  | dict : List (List Nat × MetadataValue) → MetadataValue

/-- Association-list model of `MetadataDict`. -/
abbrev MetaDict := List (List Nat × MetadataValue)

/-- Plain `HashMap::insert`: replace the value if the key is present,
otherwise add the binding. -/
def dictInsertReplace : MetaDict → List Nat → MetadataValue → MetaDict
  | [], k, v => [(k, v)]
  | (k', v') :: rest, k, v =>
    if k' = k then (k', v) :: rest else (k', v') :: dictInsertReplace rest k v

/-- The insert-or-promote rule implemented (four times, with identical
semantics) by the `entry`-API `match` blocks of the header parsers in
`src/src/byte_parser.rs`: an occupied `List` entry gets the value appended,
any other occupied entry is replaced by a two-element `List` of the old and
the new value, a vacant entry just receives the value. -/
def insertPromote : MetaDict → List Nat → MetadataValue → MetaDict
  | [], k, v => [(k, v)]
  | (k', v') :: rest, k, v =>
    if k' = k then
      (match v' with
       | MetadataValue.list l => (k', MetadataValue.list (l ++ [v]))
       | old => (k', MetadataValue.list [old, v])) :: rest
    else (k', v') :: insertPromote rest k v

/-! ## UU decoder (`src/src/uu_decoder.rs`) -/

/-- Six-bit value of an input byte: `(b - 32) & 0x3F` with `u8` wrapping
subtraction (release-mode semantics). -/
def uuVal (b : Nat) : Nat := ((b + 224) % 256) &&& 63

/-- First output byte of a UU group: `(c1 << 2) | (c2 >> 4)` on the six-bit
values (always `< 256`, so no truncation is needed). -/
def uuOut0 (c1 c2 : Nat) : Nat := (uuVal c1 <<< 2) ||| (uuVal c2 >>> 4)

/-- Second output byte of a UU group: `((c2 & 0xF) << 4) | (c3 >> 2)`. -/
def uuOut1 (c2 c3 : Nat) : Nat := ((uuVal c2 &&& 15) <<< 4) ||| (uuVal c3 >>> 2)

/-- Third output byte of a UU group: `((c3 & 0x3) << 6) | c4`. -/
def uuOut2 (c3 c4 : Nat) : Nat := ((uuVal c3 &&& 3) <<< 6) ||| uuVal c4

/-- The data-byte loop of `decode_uu_line`.  The first argument is the data
window `line[1..effective_bytes]`; `room` is `nbytes - result.len()`, the
number of output bytes the line may still emit.  A full four-byte group
pushes its first output unconditionally (the loop guard ensures `room ≠ 0`)
and guards the second and third pushes by the remaining room; the trailing
one/two/three-byte cases mirror the "remaining bytes" block (a single
leftover byte yields nothing, two yield the first output byte, three yield
the first two). -/
def uuLineLoop : List Nat → Nat → List Nat
  | c1 :: c2 :: c3 :: c4 :: rest, room =>
    if room = 0 then []
    else
      uuOut0 c1 c2 ::
        (if 2 ≤ room then
          uuOut1 c2 c3 ::
            (if 3 ≤ room then uuOut2 c3 c4 :: uuLineLoop rest (room - 3) else [])
         else [])
  | [c1, c2, c3], room =>
    if room = 0 then []
    else uuOut0 c1 c2 :: (if 2 ≤ room then [uuOut1 c2 c3] else [])
  | [c1, c2], room => if room = 0 then [] else [uuOut0 c1 c2]
  | _, _ => []

/-- Models `decode_uu_line` from `src/src/uu_decoder.rs`.  `none` for the empty
line; otherwise the declared count is `(line[0] - 32) & 0x3F`, a zero count
yields the empty output, and the data bytes are limited to
`effective_bytes = min((nbytes*4 + 2)/3 + 1, line.len())` before the group
loop runs; the final `take` models `result.truncate(nbytes)`. -/
def decodeUuLine (line : List Nat) : Option (List Nat) :=
  match line with
  | [] => none
  | c0 :: rest =>
    let nbytes := uuVal c0
    if nbytes = 0 then some []
    else
      let needed := (nbytes * 4 + 2) / 3 + 1
      let effective := min needed line.length
      some ((uuLineLoop (rest.take (effective - 1)) nbytes).take nbytes)

/-- Split a byte list on `\n` (the newline bytes are dropped; a trailing
newline yields a final empty line, matching how the decoder's cursor loop
visits line ranges). -/
def splitOnNl : List Nat → List (List Nat)
  | [] => [[]]
  | b :: rest =>
    if b = 10 then [] :: splitOnNl rest
    else
      match splitOnNl rest with
      | l :: ls => (b :: l) :: ls
      | [] => [[b]]

/-- The per-line loop of `uu_decoder::decode`: empty (untrimmed) lines are
skipped, a line trimming to "end" stops decoding, every other line is
trimmed and decoded with `decode_uu_line`, concatenating the outputs. -/
def uuDecodeLines : List (List Nat) → List Nat
  | [] => []
  | l :: rest =>
    if l.isEmpty then uuDecodeLines rest
    else
      let t := trimBytes l
      if t = endBytes then []
      else
        (match decodeUuLine t with
         | some d => d
         | none => []) ++ uuDecodeLines rest

/-- Models `find_begin_line`: position just after the newline that ends the line
containing the first occurrence of "begin"; `none` when "begin" is absent or
no newline follows it. -/
def findBeginLine (input : List Nat) : Option Nat :=
  match findSub beginBytes input with
  | none => none
  | some p =>
    match List.findIdx? (fun b => b == 10) (input.drop p) with
    | some e => some (p + e + 1)
    | none => none

/-- Models `uu_decoder::decode`. -/
def uuDecode (input : List Nat) : List Nat :=
  match findBeginLine input with
  | none => []
  | some p => uuDecodeLines (splitOnNl (input.drop p))

/-! ## Specification-side UU line decoder

`decodeUuLineSpec` is *not* translated from the source; it follows the
words of the specification for claim C2: the first byte declares the count
`n = (c0 - 32) & 0x3F` (skip if zero), the remaining bytes are decoded in
groups of four input bytes to three output bytes with the stated bit
layout, a trailing incomplete group yields exactly the output bytes derivable
from the bytes present (two bytes determine the first output, three the
first two, one determines none), and at most `n` bytes are emitted. -/

/-- Decode all data bytes of a line group-wise, spec reading. -/
def uuSpecGroups : List Nat → List Nat
  | c1 :: c2 :: c3 :: c4 :: rest =>
    uuOut0 c1 c2 :: uuOut1 c2 c3 :: uuOut2 c3 c4 :: uuSpecGroups rest
  | [c1, c2, c3] => [uuOut0 c1 c2, uuOut1 c2 c3]
  | [c1, c2] => [uuOut0 c1 c2]
  | _ => []

/-- Spec reading of a whole UU line: decode every group, emit at most the
declared count. -/
def decodeUuLineSpec (line : List Nat) : List Nat :=
  match line with
  | [] => []
  | c0 :: rest => (uuSpecGroups rest).take (uuVal c0)

/-! ## Structural indexer (`build_document_index`, `src/src/byte_parser.rs`)

The Rust function receives a line index but never uses it, so the model
omits that parameter. -/

/-- The set of bytes the indexer skips between a candidate `</TEXT>` and the
following tag: space, newline, CR (note: not tab). -/
def isSkipWs (b : Nat) : Bool := b == 32 || b == 10 || b == 13

/-- Acceptance test for a candidate `</TEXT>` at position `c`: starting at
`c + 7` (just past the tag) skip bytes in `{space, \n, \r}`; accept iff the
bytes there start with `</DOCUMENT>`.  This models the `while` skip loop and
the subsequent bounds-checked slice comparison. -/
def acceptTextClose (data : List Nat) (c : Nat) : Bool :=
  leadsWith DOCUMENT_CLOSE ((data.drop (c + 7)).dropWhile isSkipWs)

/-- The `DocumentIndex` structure of `src/src/types.rs` (the `text_leftovers`
span map is keyed by the `</TEXT>` position). -/
structure DocumentIndex where
  document_positions : List (Nat × Nat)
  text_positions : List (Nat × Nat)
  header_end : Nat
  text_leftovers : List (Nat × (Nat × Nat))

/-- Per-`<TEXT>` step of the indexer's text loop: find the nearest `</TEXT>`
at or after the open and keep the pair only when the close is accepted. -/
def textPosOf (data : List Nat) (t : Nat) : Option (Nat × Nat) :=
  match findSubFrom TEXT_CLOSE data t with
  | none => none
  | some c => if acceptTextClose data c then some (t, c) else none

/-- The leftover branch of the text loop: with `pos` the position reached by
the whitespace skip, a `Span(c + 7, pos)` is recorded iff the close is
accepted, `pos > c + 7`, the span is non-empty and the skipped slice holds a
byte outside `{space, \n, \r}`.  (The skipped slice consists of skipped
bytes only, so the last condition can never hold; the branch is modelled
verbatim nevertheless.) -/
def textLeftoverOf (data : List Nat) (t : Nat) : Option (Nat × (Nat × Nat)) :=
  match findSubFrom TEXT_CLOSE data t with
  | none => none
  | some c =>
    if acceptTextClose data c then
      let skipped := (data.drop (c + 7)).takeWhile isSkipWs
      let pos := c + 7 + skipped.length
      if c + 7 < pos ∧ skipped.any (fun b => ¬ isSkipWs b) then
        some (c, (c + 7, pos))
      else none
    else none

/-- Models `build_document_index`: all `<DOCUMENT>` opens are zipped with all
`</DOCUMENT>` closes in order, keeping pairs with `open < close`; the header
ends at the first `<DOCUMENT>` (0 when there is none); text spans and
leftovers are collected per `<TEXT>` occurrence. -/
def buildDocumentIndex (data : List Nat) : DocumentIndex :=
  let allDocOpens := occList DOCUMENT_OPEN data
  let allDocCloses := occList DOCUMENT_CLOSE data
  let allTextOpens := occList TEXT_OPEN data
  { document_positions :=
      (allDocOpens.zip allDocCloses).filter (fun p => p.1 < p.2)
    text_positions := allTextOpens.filterMap (textPosOf data)
    header_end :=
      match allDocOpens with
      | [] => 0
      | p :: _ => p
    text_leftovers := allTextOpens.filterMap (textLeftoverOf data) }

/-! ## Document metadata (`parse_document_metadata`) -/

/-- One line of `parse_document_metadata`.  State: the accumulated dict and
the current key.  A line starting with `<` and containing `>` (re-)sets the
current key to the lowercased tag and, when the trimmed remainder is
non-empty, stores it as a `Text` value; any other line is appended (with a
separating space) to the current key's `Text` value when that key holds
one. -/
def docMetaStep (slice : List Nat) (st : MetaDict × Option (List Nat))
    (le : Nat × Nat) : MetaDict × Option (List Nat) :=
  let line := sliceBytes slice le.1 le.2
  if ¬ line.isEmpty ∧ line.headD 0 = 60 ∧ line.contains 62 then
    match parseTagContent line with
    | some (tg, content) =>
      let key := lowerBytes tg
      let c := trimBytes content
      if c.isEmpty then (st.1, some key)
      else (dictInsertReplace st.1 key (MetadataValue.text c), some key)
    | none => st
  else
    match st.2 with
    | some key =>
      match List.lookup key st.1 with
      | some (MetadataValue.text t) =>
        if line.isEmpty then st
        else (dictInsertReplace st.1 key
                (MetadataValue.text (t ++ 32 :: trimBytes line)), st.2)
      | _ => st
    | none => st

/-- Models `parse_document_metadata data start end`. -/
def parseDocumentMetadata (data : List Nat) (s e : Nat) : MetaDict :=
  let slice := sliceBytes data s e
  ((indexLines slice).foldl (docMetaStep slice) ([], none)).1

/-- Models `process_text_content` from `src/src/byte_parser.rs`: trim leading
whitespace; empty payloads give the empty vector; payloads whose first five
bytes are "begin" are UU-decoded; all others are copied verbatim.  (No
`<PDF>`/`<XBRL>`/`<XML>` wrapper handling happens here; see claim C7.) -/
def processTextContent (data : List Nat) : List Nat :=
  let d := trimBytesStart data
  if d.isEmpty then []
  else if leadsWith beginBytes d then uuDecode d
  else d

/-! ## DashedDefault header parser (`parse_dashed_default_header`)

The look-ahead bound is abstracted into a function `se : Nat → Nat → Nat`
mapping the current line number and the number of lines to the (exclusive)
end of the search range, so that the bounded parser of the source and an
unbounded variant share the loop verbatim (claim C10). -/

/-- The source's bound: `search_end = (i + 100).min(lines.len())`. -/
def dashedSearchEndBounded (i len : Nat) : Nat := min (i + 100) len

/-- Unbounded look-ahead: scan to the end of the header. -/
def dashedSearchEndUnbounded (_i len : Nat) : Nat := len

/-- The inner look-ahead loop: does any of the given lines parse to a tag
whose lowercase form equals `closing`? -/
def hasClosingIn (data : List Nat) (closing : List Nat) : List (Nat × Nat) → Bool
  | [] => false
  | (ls, le) :: rest =>
    match parseTagContent (sliceBytes data ls le) with
    | some (tg, _) =>
      if lowerBytes tg = closing then true else hasClosingIn data closing rest
    | none => hasClosingIn data closing rest

/-- The window of lines `i+1 .. se i len` (exclusive) that the look-ahead
examines. -/
def lookWindow (lines : List (Nat × Nat)) (se : Nat → Nat → Nat) (i : Nat) :
    List (Nat × Nat) :=
  (lines.drop (i + 1)).take (se i lines.length - (i + 1))

/-- Look-ahead flag of line `i`: `true` iff line `i` parses to a tag and a
matching closing tag occurs in its look-ahead window.  (Used to state claim
C10; the main loop computes the same value inline.) -/
def lookFlag (data : List Nat) (lines : List (Nat × Nat)) (se : Nat → Nat → Nat)
    (i : Nat) : Bool :=
  match lines.get? i with
  | none => false
  | some (ls, le) =>
    match parseTagContent (sliceBytes data ls le) with
    | none => false
    | some (tg, _) => hasClosingIn data (47 :: lowerBytes tg) (lookWindow lines se i)

/-- Replace the top of the dict stack (the stack is kept top-first, so the
root dict is the *last* element, matching `dict_stack[0]` in the source). -/
def modifyTop (f : MetaDict → MetaDict) : List MetaDict → List MetaDict
  | [] => []
  | d :: ds => f d :: ds

/-- Main loop of `parse_dashed_default_header`.  A crucial (and faithful)
detail: when a tag with a closing tag is pushed, a *clone* of the then-empty
nested dict is inserted into the parent via the promote rule, and on the
matching closing tag the popped frame is simply discarded — the Rust code
clones `HashMap`s by value, so everything inserted into the frame after the
push is dropped with it. -/
def dashedLoop (data : List Nat) (lines : List (Nat × Nat)) (se : Nat → Nat → Nat) :
    List (Nat × Nat) → Nat → List (List Nat) → List MetaDict → List MetaDict
  | [], _, _, dictStack => dictStack
  | (ls, le) :: rest, i, tagStack, dictStack =>
    let line := sliceBytes data ls le
    if line.isEmpty ∨ ¬ line.contains 62 then
      dashedLoop data lines se rest (i + 1) tagStack dictStack
    else
      match parseTagContent line with
      | none => dashedLoop data lines se rest (i + 1) tagStack dictStack
      | some (tg, content) =>
        let lt := lowerBytes tg
        if lt.head? = some 47 then
          if tagStack.head? = some lt.tail then
            dashedLoop data lines se rest (i + 1) tagStack.tail dictStack.tail
          else
            dashedLoop data lines se rest (i + 1) tagStack dictStack
        else
          if hasClosingIn data (47 :: lt) (lookWindow lines se i) then
            dashedLoop data lines se rest (i + 1) (lt :: tagStack)
              ([] :: modifyTop (fun d => insertPromote d lt (MetadataValue.dict [])) dictStack)
          else
            let c := trimBytes content
            if c.isEmpty then
              dashedLoop data lines se rest (i + 1) tagStack dictStack
            else
              dashedLoop data lines se rest (i + 1) tagStack
                (modifyTop (fun d => insertPromote d lt (MetadataValue.text c)) dictStack)

/-- Models `parse_dashed_default_header` with an abstract look-ahead range. -/
def parseDashedHeaderWith (se : Nat → Nat → Nat) (data : List Nat) (endPos : Nat) :
    MetaDict :=
  let w := data.take endPos
  let lines := indexLines w
  (dashedLoop w lines se lines 0 [] [[]]).getLastD []

/-- The source's `parse_dashed_default_header` (bounded look-ahead). -/
def parseDashedDefaultHeader (data : List Nat) (endPos : Nat) : MetaDict :=
  parseDashedHeaderWith dashedSearchEndBounded data endPos

/-! ## Tab header parser (`parse_tab_header`) -/

/-- Submission dialects (`SubmissionType` in `src/src/types.rs`). -/
inductive SubmissionType where
  | dashedDefault
  | tabPrivacy
  | tabDefault
deriving DecidableEq

/-- Error kinds of `ParseError` in `src/src/types.rs`.  The `String` /
`io::Error` payloads carry diagnostic text only and are not modelled. -/
inductive ParseErrorKind where
  | io
  | json
  | unknownSubmissionType
  | invalidContent
  | noInput
deriving DecidableEq

/-- Collect privacy-message lines: walk bytes after the marker line, cut
each line at `\n`, stop at a line containing `<` together with an uppercase
ASCII letter; a trailing line without `\n` is never collected.  `cur`
accumulates the current line in reverse. -/
def privacyLoop : List Nat → List Nat → List (List Nat)
  | [], _ => []
  | b :: rest, cur =>
    if b = 10 then
      let line := cur.reverse
      if line.contains 60 ∧ line.any (fun x => 65 ≤ x && x ≤ 90) then []
      else line :: privacyLoop rest []
    else privacyLoop rest (b :: cur)

/-- Pop tab-header stack frames while the stack has more than the root frame
and the top frame's indent is `≥` the current indent.  Popped dicts are
discarded (the same clone-and-drop behaviour as in the dashed parser). -/
def tabPop (indent : Nat) : List Nat → List MetaDict → List Nat × List MetaDict
  | i1 :: i2 :: irest, _d1 :: d2 :: drest =>
    if indent ≤ i1 then tabPop indent (i2 :: irest) (d2 :: drest)
    else (i1 :: i2 :: irest, _d1 :: d2 :: drest)
  | is, ds => (is, ds)

/-- Main loop of `parse_tab_header` over the header's lines. -/
def tabLoop (data : List Nat) :
    List (Nat × Nat) → List Nat → List MetaDict → List MetaDict
  | [], _, dictStack => dictStack
  | (ls, le) :: rest, indentStack, dictStack =>
    let line := sliceBytes data ls le
    if line.isEmpty then tabLoop data rest indentStack dictStack
    else
      let indent := (line.takeWhile (fun b => b == 32 || b == 9)).length
      let parsed : Option (List Nat × List Nat) :=
        if line.contains 62 then
          match parseTagContent line with
          | some (tg, content) =>
            match lowerBytes tg with
            | 47 :: _ => none
            | lt => some (lt, content)
          | none => none
        else if line.contains 58 then
          match List.findIdx? (fun b => b == 58) line with
          | some p => some (lowerBytes (line.take p), line.drop (p + 1))
          | none => none
        else none
      match parsed with
      | none => tabLoop data rest indentStack dictStack
      | some (tag, text) =>
        let popped := tabPop indent indentStack dictStack
        let c := trimBytes text
        if ¬ c.isEmpty then
          tabLoop data rest popped.1
            (modifyTop (fun d => insertPromote d tag (MetadataValue.text c)) popped.2)
        else
          tabLoop data rest (indent :: popped.1)
            ([] :: modifyTop (fun d => insertPromote d tag (MetadataValue.dict [])) popped.2)

/-- Models `parse_tab_header data end submission_type`.  For `TabPrivacy` inputs the
privacy message is collected first and stored at its key in the root dict;
the indent-driven loop then runs over *all* header lines (the source does
not skip the consumed region). -/
def parseTabHeader (data : List Nat) (endPos : Nat) (st : SubmissionType) : MetaDict :=
  let w := data.take endPos
  let root0 : MetaDict :=
    if st = SubmissionType.tabPrivacy then
      match findSub PRIVACY_MSG w with
      | some startPos =>
        let afterMarker := ((w.drop (startPos + 40)).dropWhile (fun b => ¬ b == 10)).drop 1
        let msg := privacyLoop afterMarker []
        if msg.isEmpty then []
        else
          [(privacyKey,
            MetadataValue.text (msg.foldr (fun l acc => l ++ 10 :: acc) []))]
      | none => []
    else []
  (tabLoop w (indexLines w) [0] [root0]).getLastD []

/-! ## Submission driver (`parse_sgml_bytes`) -/

/-- The "first line" used by `detect_submission_type`: everything before the
first `\n` (possibly empty, possibly the whole buffer). -/
def firstLineOf (data : List Nat) : List Nat :=
  data.take ((List.findIdx? (fun b => b == 10) data).getD data.length)

/-- Models `detect_submission_type` from `src/src/byte_parser.rs`: each marker is
searched for as a *substring* of the first line (`memmem::find`). -/
def detectSubmissionType (data : List Nat) :
    Except ParseErrorKind SubmissionType :=
  if (findSub SUBMISSION (firstLineOf data)).isSome then Except.ok SubmissionType.dashedDefault
  else if (findSub PRIVACY_MSG (firstLineOf data)).isSome then Except.ok SubmissionType.tabPrivacy
  else if (findSub SEC_DOCUMENT (firstLineOf data)).isSome then Except.ok SubmissionType.tabDefault
  else Except.error ParseErrorKind.unknownSubmissionType

/-- The per-document text lookup of the driver loop: the first `<TEXT>` at
or after the document open is used iff it lies before the document close and
appears in the text-position map (modelled by `List.lookup`, faithful
because every `<TEXT>` position occurs at most once). -/
def docTextRange (data : List Nat) (tps : List (Nat × Nat)) (ds de : Nat) :
    Option (Nat × Nat) :=
  match findSubFrom TEXT_OPEN data ds with
  | none => none
  | some t =>
    if t < de then
      match List.lookup t tps with
      | some te => some (t, te)
      | none => none
    else none

/-- Assemble one document's payload: the bytes strictly between the `<TEXT>`
tag and the `</TEXT>` position, extended by a leftover span when one is
recorded at the close position, then processed (UU decode or copy). -/
def docContent (data : List Nat) (idx : DocumentIndex) (ts te : Nat) : List Nat :=
  let textContent := sliceBytes data (ts + 6) te
  match List.lookup te idx.text_leftovers with
  | some sp => processTextContent (textContent ++ sliceBytes data sp.1 sp.2)
  | none => processTextContent textContent

/-- The driver's per-document loop, mirroring the two parallel `push`es
(document metadata and payload) that happen together under the
`if let Some(text_range)` branch. -/
def assembleLoop (data : List Nat) (idx : DocumentIndex) :
    List (Nat × Nat) → List MetadataValue × List (List Nat)
  | [] => ([], [])
  | (ds, de) :: rest =>
    let tailRes := assembleLoop data idx rest
    match docTextRange data idx.text_positions ds de with
    | none => tailRes
    | some (ts, te) =>
      (MetadataValue.dict (parseDocumentMetadata data (ds + 10) ts) :: tailRes.1,
       docContent data idx ts te :: tailRes.2)

/-- What one document span contributes to the two output lists: `none`
exactly when the document has no accepted text span (then it contributes to
neither list), otherwise the pair of its metadata dict and payload.  Used to
state claim C1; `assembleLoop` computes the same data with two parallel
accumulators. -/
def emitPair (data : List Nat) (idx : DocumentIndex) (p : Nat × Nat) :
    Option (MetadataValue × List Nat) :=
  (docTextRange data idx.text_positions p.1 p.2).map
    (fun tr =>
      (MetadataValue.dict (parseDocumentMetadata data (p.1 + 10) tr.1),
       docContent data idx tr.1 tr.2))

/-- Models `parse_sgml_bytes` from `src/src/byte_parser.rs`. -/
def parseSgmlBytes (data : List Nat) :
    Except ParseErrorKind (MetaDict × List (List Nat)) :=
  if data.isEmpty then Except.error ParseErrorKind.invalidContent
  else
    match detectSubmissionType data with
    | Except.error e => Except.error e
    | Except.ok st =>
      let idx := buildDocumentIndex data
      let metadata :=
        match st with
        | SubmissionType.dashedDefault => parseDashedDefaultHeader data idx.header_end
        | _ => parseTabHeader data idx.header_end st
      let pair := assembleLoop data idx idx.document_positions
      Except.ok
        (dictInsertReplace metadata docsKey (MetadataValue.list pair.1), pair.2)

/-! ## Line-based payload cleaner (`clean_lines`, `src/src/utils.rs`)

The line-based pipelines (`src/src/sgml.rs` via `src/src/utils.rs`, and the
`secsgml` crate) strip the `<PDF>`/`<XBRL>`/`<XML>` wrapper before the
UU-vs-raw decision; lines are modelled as byte lists (`String::trim` on the
ASCII content at hand trims the same characters as `trimBytes`). -/

/-- Index of the last line satisfying `p` (models
`iter().rev().position(...)` mapped back to a forward index). -/
def lastIdxWhere (p : List Nat → Bool) : List (List Nat) → Option Nat
  | [] => none
  | l :: rest =>
    match lastIdxWhere p rest with
    | some i => some (i + 1)
    | none => if p l then some 0 else none

/-- Membership in the `special_tags` set of `src/src/utils.rs`. -/
def isSpecialTag (t : List Nat) : Bool := t == PDF_TAG || t == XBRL_TAG || t == XML_TAG

/-- Models the closing-tag string the Rust code formats from the wrapper
tag: a `<` and a `/` followed by the wrapper bytes after its opening `<`. -/
def closeTagFor (t : List Nat) : List Nat := 60 :: 47 :: t.drop 1

/-- Models `clean_lines` from `src/src/utils.rs`: skip leading blank lines (when
every line is blank the result is empty — `position` returning `None` is the
`start >= lines.len()` early return); if the first remaining line trims to
one of the special wrappers, find the *last* line trimming to the matching
closing tag and return the lines strictly between wrapper and closing tag;
otherwise return the remaining lines. -/
def cleanLines (lines : List (List Nat)) : List (List Nat) :=
  match List.findIdx? (fun l => !(trimBytes l).isEmpty) lines with
  | none => []
  | some start =>
    if isSpecialTag (trimBytes ((lines.drop start).headD [])) then
      match lastIdxWhere
          (fun l => trimBytes l == closeTagFor (trimBytes ((lines.drop start).headD [])))
          (lines.drop start) with
      | some endPos => ((lines.drop start).take endPos).drop 1
      | none => lines.drop start
    else lines.drop start

/-! ## String fallback UU decoder (`fallback_decode`,
`src/secsgml/src/uu_decode.rs`)

The bit accumulator loop of the fallback decoder: `leftchar`/`leftbits`
hold pending bits, CR/LF and every byte outside `[32, 96]` are skipped, six
bits are shifted in per remaining byte and whole bytes are emitted while
fewer than `len` bytes have been produced. -/

def fallbackLineLoop (len : Nat) : List Nat → Nat → Nat → List Nat → List Nat
  | [], _, _, acc => acc
  | ch :: rest, leftbits, leftchar, acc =>
    if ch = 10 ∨ ch = 13 then fallbackLineLoop len rest leftbits leftchar acc
    else if ch < 32 ∨ 96 < ch then fallbackLineLoop len rest leftbits leftchar acc
    else
      let v := (ch - 32) &&& 63
      let lc := (leftchar <<< 6) ||| v
      let lb := leftbits + 6
      if 8 ≤ lb then
        let lb' := lb - 8
        let out := (lc >>> lb') &&& 255
        let lc' := lc &&& ((1 <<< lb') - 1)
        let acc' := acc ++ [out]
        if len ≤ acc'.length then acc'
        else fallbackLineLoop len rest lb' lc' acc'
      else fallbackLineLoop len rest lb lc acc

/-- Models `fallback_decode` over already-split lines: scan for a line starting
with "begin"; afterwards an empty line or "end" stops, lines shorter than
two bytes are skipped, otherwise the first byte declares the count and the
remaining bytes run through the accumulator loop. -/
def fallbackDecode : List (List Nat) → Bool → List Nat
  | [], _ => []
  | l :: rest, inData =>
    let t := trimBytes l
    if ¬ inData then
      fallbackDecode rest (leadsWith beginBytes t)
    else if t.isEmpty ∨ t = endBytes then []
    else if t.length < 2 then fallbackDecode rest true
    else
      let n := uuVal (t.headD 0)
      if n = 0 then fallbackDecode rest true
      else fallbackLineLoop n (t.drop 1) 0 0 [] ++ fallbackDecode rest true

/-! ## Concrete inputs used by witnesses and counterexamples -/

/-- A minimal DashedDefault submission:
"<SUBMISSION>\n<DOCUMENT>\n<TYPE>A\n<TEXT>\nHi\n</TEXT>\n</DOCUMENT>\n". -/
def sampleSubmission : List Nat :=
  SUBMISSION ++ [10] ++ DOCUMENT_OPEN ++ [10] ++ [60, 84, 89, 80, 69, 62, 65, 10] ++
  TEXT_OPEN ++ [10, 72, 105, 10] ++ TEXT_CLOSE ++ [10] ++ DOCUMENT_CLOSE ++ [10]

/-- Input "<DOCUMENT><DOCUMENT></DOCUMENT></DOCUMENT>": nested occurrences that
make the zipped document spans overlap. -/
def overlapInput : List Nat :=
  DOCUMENT_OPEN ++ DOCUMENT_OPEN ++ DOCUMENT_CLOSE ++ DOCUMENT_CLOSE

/-- Input "<TEXT>a</TEXT>x</DOCUMENT>": the `</TEXT>` is followed by a
non-whitespace byte before `</DOCUMENT>`, so the close is rejected. -/
def badCloseInput : List Nat :=
  TEXT_OPEN ++ [97] ++ TEXT_CLOSE ++ [120] ++ DOCUMENT_CLOSE

/-- Input "x<SUBMISSION>": the first (and only) line does not *start* with any
dialect marker but *contains* one. -/
def markerInsideInput : List Nat := [120] ++ SUBMISSION

/-- The key "foo" (ASCII bytes). -/
def fooKey : List Nat := [102, 111, 111]

/-- A header whose closing tag sits 100 lines after its opening tag:
"<FOO>\n" followed by 99 lines "x\n" and then "</FOO>\n". -/
def deepCloseInput : List Nat :=
  [60, 70, 79, 79, 62, 10] ++ (List.replicate 99 [120, 10]).flatten ++
  [60, 47, 70, 79, 79, 62, 10]

/-- Input "<PDF>\nhi\n</PDF>" as a raw byte payload. -/
def pdfPayload : List Nat :=
  PDF_TAG ++ [10, 104, 105, 10] ++ [60, 47, 80, 68, 70, 62]

/-- Input "hello" (a line matching no dialect marker). -/
def helloInput : List Nat := [104, 101, 108, 108, 111]

/-! ## Lemmas about the UU line decoder (claim C2) -/

/-- The group loop of `decode_uu_line` computes exactly the spec-side
group decode truncated to the remaining room. -/
theorem uuLineLoop_eq_take :
    ∀ (d : List Nat) (room : Nat), uuLineLoop d room = (uuSpecGroups d).take room
  | [], room => by cases room <;> simp [uuLineLoop, uuSpecGroups]
  | [c1], room => by cases room <;> simp [uuLineLoop, uuSpecGroups]
  | [c1, c2], room => by
    match room with
    | 0 => simp [uuLineLoop, uuSpecGroups]
    | r + 1 => simp [uuLineLoop, uuSpecGroups]
  | [c1, c2, c3], room => by
    match room with
    | 0 => simp [uuLineLoop, uuSpecGroups]
    | 1 => simp [uuLineLoop, uuSpecGroups]
    | r + 2 => simp [uuLineLoop, uuSpecGroups]
  | c1 :: c2 :: c3 :: c4 :: rest, room => by
    match room with
    | 0 => simp [uuLineLoop, uuSpecGroups]
    | 1 => simp [uuLineLoop, uuSpecGroups]
    | 2 => simp [uuLineLoop, uuSpecGroups]
    | r + 3 => simp [uuLineLoop, uuSpecGroups, uuLineLoop_eq_take rest r]

/-- Cutting a line's data to `(n*4+2)/3` bytes (the `effective_bytes`
window) does not change the first `n` spec-decoded bytes. -/
theorem uuSpecGroups_take_cut :
    ∀ (n : Nat) (d : List Nat),
      (uuSpecGroups (d.take ((n * 4 + 2) / 3))).take n = (uuSpecGroups d).take n
  | 0, d => by simp
  | 1, d => by
    match d with
    | [] => rfl
    | [c1] => rfl
    | [c1, c2] => rfl
    | [c1, c2, c3] => rfl
    | c1 :: c2 :: c3 :: c4 :: t => rfl
  | 2, d => by
    match d with
    | [] => rfl
    | [c1] => rfl
    | [c1, c2] => rfl
    | [c1, c2, c3] => rfl
    | c1 :: c2 :: c3 :: c4 :: t => rfl
  | m + 3, d => by
    match d with
    | [] => simp
    | [c1] =>
      have h : List.take (((m + 3) * 4 + 2) / 3) [c1] = [c1] :=
        List.take_of_length_le (by simp; omega)
      rw [h]
    | [c1, c2] =>
      have h : List.take (((m + 3) * 4 + 2) / 3) [c1, c2] = [c1, c2] :=
        List.take_of_length_le (by simp; omega)
      rw [h]
    | [c1, c2, c3] =>
      have h : List.take (((m + 3) * 4 + 2) / 3) [c1, c2, c3] = [c1, c2, c3] :=
        List.take_of_length_le (by simp; omega)
      rw [h]
    | c1 :: c2 :: c3 :: c4 :: t =>
      have harith : ((m + 3) * 4 + 2) / 3 = (m * 4 + 2) / 3 + 1 + 1 + 1 + 1 := by omega
      rw [harith]
      simp only [List.take_succ_cons, uuSpecGroups, List.take]
      rw [uuSpecGroups_take_cut m t]

/-- Helper for claim C2's main equality (stated separately so the claim
theorem can use it directly): the source decoder equals the spec decoder on
every non-empty line. -/
theorem decodeUuLine_eq_spec_aux (c0 : Nat) (rest : List Nat) :
    decodeUuLine (c0 :: rest) = some (decodeUuLineSpec (c0 :: rest)) := by
  simp only [decodeUuLine, decodeUuLineSpec]
  by_cases h0 : uuVal c0 = 0
  · simp [h0]
  · simp only [h0, if_neg h0]
    rw [uuLineLoop_eq_take, List.take_take, min_self]
    have hm : min ((uuVal c0 * 4 + 2) / 3 + 1) ((c0 :: rest).length) - 1
        = min ((uuVal c0 * 4 + 2) / 3) rest.length := by
      simp only [List.length_cons]
      omega
    rw [hm]
    rcases Nat.le_total rest.length ((uuVal c0 * 4 + 2) / 3) with hle | hge
    · rw [Nat.min_eq_right hle, List.take_length]
      simp
    · rw [Nat.min_eq_left hge]
      exact congrArg some (uuSpecGroups_take_cut (uuVal c0) rest)

/-! ## Lemmas about pattern matching and the structural index -/

/-- A successful match needs at least the pattern's length. -/
theorem leadsWith_length : ∀ {pat l : List Nat}, leadsWith pat l = true → pat.length ≤ l.length
  | [], _, _ => Nat.zero_le _
  | p :: ps, [], h => by simp [leadsWith] at h
  | p :: ps, b :: bs, h => by
    simp only [leadsWith, Bool.and_eq_true] at h
    simpa using leadsWith_length h.2

/-- Membership in the occurrence list. -/
theorem mem_occList {pat data : List Nat} {i : Nat} :
    i ∈ occList pat data ↔ i < data.length ∧ leadsWith pat (data.drop i) = true := by
  simp [occList, List.mem_filter, List.mem_range]

/-- Occurrence positions are strictly increasing. -/
theorem occList_pairwise (pat data : List Nat) :
    List.Pairwise (· < ·) (occList pat data) :=
  (List.pairwise_lt_range data.length).sublist (List.filter_sublist _)

/-- The first components of a zip form a sublist of the left list. -/
theorem map_fst_zip_sublist :
    ∀ (a : List Nat) (b : List Nat), ((a.zip b).map Prod.fst).Sublist a
  | [], _ => by simp
  | _ :: _, [] => by simp
  | x :: xs, y :: ys => by
    simpa using List.Sublist.cons₂ x (map_fst_zip_sublist xs ys)

/-- For a `filterMap` whose function keeps the scrutinee as first component,
the first components form a sublist of the input. -/
theorem map_fst_filterMap_sublist (f : Nat → Option (Nat × Nat))
    (hf : ∀ a p, f a = some p → p.1 = a) :
    ∀ l : List Nat, ((l.filterMap f).map Prod.fst).Sublist l
  | [] => by simp
  | x :: xs => by
    cases hx : f x with
    | none => simpa [List.filterMap_cons, hx] using (map_fst_filterMap_sublist f hf xs).cons x
    | some p =>
      have : p.1 = x := hf x p hx
      simpa [List.filterMap_cons, hx, this] using
        List.Sublist.cons₂ x (map_fst_filterMap_sublist f hf xs)

/-- Unfolding of a successful `textPosOf`. -/
theorem textPosOf_eq_some {data : List Nat} {a t c : Nat}
    (h : textPosOf data a = some (t, c)) :
    t = a ∧ findSubFrom TEXT_CLOSE data a = some c ∧ acceptTextClose data c = true := by
  unfold textPosOf at h
  cases hf : findSubFrom TEXT_CLOSE data a with
  | none => rw [hf] at h; simp at h
  | some cz =>
    rw [hf] at h
    by_cases ha : acceptTextClose data cz
    · simp [ha] at h
      obtain ⟨ha2, hc2⟩ := h
      subst ha2
      subst hc2
      exact ⟨rfl, rfl, ha⟩
    · simp [ha] at h

/-- Lemma: `textPosOf` keeps the open position as first component. -/
theorem textPosOf_fst {data : List Nat} {a : Nat} {p : Nat × Nat}
    (h : textPosOf data a = some p) : p.1 = a := by
  cases p with
  | mk t c => exact (textPosOf_eq_some h).1

/-- Lemma on `scanFor` results: position bound, match at the result, and minimality
among positions in the scanned suffix. -/
theorem scanFor_eq_some :
    ∀ (pat l : List Nat) (i c : Nat), scanFor pat l i = some c →
      i ≤ c ∧ leadsWith pat (l.drop (c - i)) = true ∧
        ∀ j, i ≤ j → j < c → leadsWith pat (l.drop (j - i)) = false
  | pat, [], i, c => by
    intro h
    simp only [scanFor] at h
    by_cases hw : leadsWith pat [] = true
    · simp [hw] at h
      subst h
      exact ⟨Nat.le_refl _, by simpa using hw, fun j hj hjc => absurd hjc (by omega)⟩
    · simp [hw] at h
  | pat, b :: rest, i, c => by
    intro h
    simp only [scanFor] at h
    by_cases hw : leadsWith pat (b :: rest) = true
    · simp [hw] at h
      subst h
      exact ⟨Nat.le_refl _, by simpa using hw, fun j hj hjc => absurd hjc (by omega)⟩
    · simp [hw] at h
      obtain ⟨h1, h2, h3⟩ := scanFor_eq_some pat rest (i + 1) c h
      refine ⟨by omega, ?_, ?_⟩
      · have : c - i = (c - (i + 1)) + 1 := by omega
        rw [this]
        simpa using h2
      · intro j hj hjc
        rcases Nat.eq_or_lt_of_le hj with hji | hji
        · subst hji
          simpa using Bool.not_eq_true _ |>.mp hw
        · have : j - i = (j - (i + 1)) + 1 := by omega
          rw [this]
          simpa using h3 j (by omega) hjc

/-- Lemma on `findSubFrom` results: lower bound, match, and minimality. -/
theorem findSubFrom_eq_some {pat data : List Nat} {s c : Nat}
    (h : findSubFrom pat data s = some c) :
    s ≤ c ∧ leadsWith pat (data.drop c) = true ∧
      ∀ j, s ≤ j → j < c → leadsWith pat (data.drop j) = false := by
  obtain ⟨h1, h2, h3⟩ := scanFor_eq_some pat (data.drop s) s c h
  refine ⟨h1, ?_, ?_⟩
  · rw [List.drop_drop] at h2
    have hsc : s + (c - s) = c := by omega
    rwa [hsc] at h2
  · intro j hj hjc
    have hx := h3 j hj hjc
    rw [List.drop_drop] at hx
    have hsj : s + (j - s) = j := by omega
    rwa [hsj] at hx

/-- Rust's `u8::is_ascii_whitespace`: space, tab, `\n`, `\x0c`, `\r`.  This
is the claim-side "ASCII whitespace" predicate of C4. -/
def isAsciiWsB (b : Nat) : Bool := b == 32 || b == 9 || b == 10 || b == 12 || b == 13

/-- Two whitespace predicates with `p ⊆ q` skip to the same position when
the byte reached fails `q`. -/
theorem dropWhile_eq_of_sub (p q : Nat → Bool) (hpq : ∀ b, p b = true → q b = true) :
    ∀ (l : List Nat) (c : Nat) (r : List Nat),
      q c = false → l.dropWhile p = c :: r → l.dropWhile q = c :: r
  | [], c, r => by
    intro _ h
    simp [List.dropWhile] at h
  | a :: t, c, r => by
    intro hqc h
    by_cases hpa : p a = true
    · rw [List.dropWhile_cons, if_pos hpa] at h
      rw [List.dropWhile_cons, if_pos (hpq a hpa)]
      exact dropWhile_eq_of_sub p q hpq t c r hqc h
    · rw [List.dropWhile_cons, if_neg hpa] at h
      have hac : a = c := (List.cons.injEq _ _ _ _ ▸ h).1
      have htr : t = r := (List.cons.injEq _ _ _ _ ▸ h).2
      subst hac
      subst htr
      rw [List.dropWhile_cons, if_neg (by simp [hqc])]

/-- A `</DOCUMENT>` match forces the first byte to be `<` (byte 60). -/
theorem leadsWith_DOCUMENT_CLOSE_head {l : List Nat}
    (h : leadsWith DOCUMENT_CLOSE l = true) : ∃ r, l = 60 :: r := by
  cases l with
  | nil => simp [leadsWith, DOCUMENT_CLOSE] at h
  | cons a r =>
    simp only [DOCUMENT_CLOSE, leadsWith, Bool.and_eq_true, beq_iff_eq] at h
    exact ⟨r, by rw [h.1]⟩

/-- An accepted close (skip set `{space, \n, \r}`) also satisfies the
claim's full-ASCII-whitespace version of the test: the code's skip set is
contained in ASCII whitespace and the byte reached is `<`. -/
theorem acceptTextClose_ws {data : List Nat} {c : Nat}
    (h : acceptTextClose data c = true) :
    leadsWith DOCUMENT_CLOSE ((data.drop (c + 7)).dropWhile isAsciiWsB) = true := by
  unfold acceptTextClose at h
  obtain ⟨r, hr⟩ := leadsWith_DOCUMENT_CLOSE_head h
  have hsub : ∀ b, isSkipWs b = true → isAsciiWsB b = true := by
    intro b hb
    simp only [isSkipWs, Bool.or_eq_true, beq_iff_eq] at hb
    simp only [isAsciiWsB, Bool.or_eq_true, beq_iff_eq]
    rcases hb with h1 | h1 | h1 <;> omega
  have h60 : isAsciiWsB 60 = false := by simp [isAsciiWsB]
  rw [dropWhile_eq_of_sub isSkipWs isAsciiWsB hsub _ 60 r h60 hr]
  rw [← hr]
  exact h

/-- Contrapositive: when the whitespace-skipped suffix does not start with
`</DOCUMENT>`, the indexer does not accept the close. -/
theorem acceptTextClose_of_not_ws {data : List Nat} {c : Nat}
    (h : leadsWith DOCUMENT_CLOSE ((data.drop (c + 7)).dropWhile isAsciiWsB) = false) :
    acceptTextClose data c = false := by
  by_cases ha : acceptTextClose data c = true
  · rw [acceptTextClose_ws ha] at h
    exact absurd h (by simp)
  · simpa using ha

/-- Lemma: `HashMap::insert` then `get` means the inserted value is found. -/
theorem lookup_dictInsertReplace :
    ∀ (m : MetaDict) (k : List Nat) (v : MetadataValue),
      List.lookup k (dictInsertReplace m k v) = some v
  | [], k, v => by simp [dictInsertReplace, List.lookup]
  | (k', v') :: rest, k, v => by
    by_cases h : k' = k
    · subst h
      simp [dictInsertReplace, List.lookup]
    · simp only [dictInsertReplace, if_neg h]
      rw [List.lookup]
      have : (k == k') = false := by
        simp only [beq_eq_false_iff_ne, ne_eq]
        exact fun hk => h hk.symm
      rw [this]
      exact lookup_dictInsertReplace rest k v

/-- No pair with key `t` in an association list means `lookup t` fails. -/
theorem lookup_eq_none_of_not_mem :
    ∀ (l : List (Nat × Nat)) (t : Nat), (∀ c, (t, c) ∉ l) → List.lookup t l = none
  | [], t, _ => rfl
  | (k, v) :: rest, t, h => by
    rw [List.lookup]
    have hkt : (t == k) = false := by
      simp only [beq_eq_false_iff_ne, ne_eq]
      intro he
      exact h v (by rw [he]; exact List.mem_cons_self _ _)
    rw [hkt]
    exact lookup_eq_none_of_not_mem rest t (fun c hc => h c (List.mem_cons_of_mem _ hc))

/-- The driver's document loop computes, in lock step, the first and second
components of the per-document `emitPair` results. -/
theorem assembleLoop_eq (data : List Nat) (idx : DocumentIndex) :
    ∀ l : List (Nat × Nat),
      assembleLoop data idx l =
        ((l.filterMap (emitPair data idx)).map Prod.fst,
         (l.filterMap (emitPair data idx)).map Prod.snd)
  | [] => rfl
  | (ds, de) :: rest => by
    simp only [assembleLoop, assembleLoop_eq data idx rest]
    cases h : docTextRange data idx.text_positions ds de with
    | none => simp [List.filterMap_cons, emitPair, h]
    | some tr =>
      cases tr with
      | mk ts te => simp [List.filterMap_cons, emitPair, h]

/-! ## Lemmas for the fallback decoder (claim C6) -/

/-- Skipped-byte invariance of the fallback accumulator loop: a byte outside
`[32, 96]` anywhere in the remaining input changes nothing (the CR/LF check
and the range check both lead to the same plain recursive call). -/
theorem fallbackLineLoop_skip (len b : Nat) (hb : b < 32 ∨ 96 < b) :
    ∀ (pre post : List Nat) (lb lc : Nat) (acc : List Nat),
      fallbackLineLoop len (pre ++ b :: post) lb lc acc =
        fallbackLineLoop len (pre ++ post) lb lc acc
  | [], post, lb, lc, acc => by
    simp only [List.nil_append]
    by_cases h1 : b = 10 ∨ b = 13
    · rw [fallbackLineLoop, if_pos h1]
    · rw [fallbackLineLoop, if_neg h1, if_pos hb]
  | a :: pre, post, lb, lc, acc => by
    simp only [List.cons_append]
    by_cases h1 : a = 10 ∨ a = 13
    · rw [fallbackLineLoop, if_pos h1, fallbackLineLoop, if_pos h1]
      exact fallbackLineLoop_skip len b hb pre post lb lc acc
    · by_cases h2 : a < 32 ∨ 96 < a
      · rw [fallbackLineLoop, if_neg h1, if_pos h2, fallbackLineLoop, if_neg h1, if_pos h2]
        exact fallbackLineLoop_skip len b hb pre post lb lc acc
      · rw [fallbackLineLoop, if_neg h1, if_neg h2, fallbackLineLoop, if_neg h1, if_neg h2]
        by_cases h3 : 8 ≤ lb + 6
        · simp only [if_pos h3]
          by_cases h4 : len ≤ (acc ++ [(((lc <<< 6) ||| ((a - 32) &&& 63)) >>> (lb + 6 - 8)) &&& 255]).length
          · simp only [if_pos h4]
          · simp only [if_neg h4]
            exact fallbackLineLoop_skip len b hb pre post _ _ _
        · simp only [if_neg h3]
          exact fallbackLineLoop_skip len b hb pre post _ _ _

/-- Lemma: `decode_uu_line` succeeds on every non-empty line (no byte value makes
it fail). -/
theorem decodeUuLine_isSome :
    ∀ (l : List Nat), l ≠ [] → (decodeUuLine l).isSome = true
  | [], h => absurd rfl h
  | c0 :: rest, _ => by
    rw [decodeUuLine_eq_spec_aux]
    rfl

/-! ## Helpers for the look-ahead equivalence (claim C10) -/

/-- Relate a `drop` that exposes a head with `get?` and the next `drop`. -/
theorem drop_eq_cons_split {α : Type} :
    ∀ (l : List α) (i : Nat) (x : α) (r : List α),
      l.drop i = x :: r → l.get? i = some x ∧ l.drop (i + 1) = r
  | [], i, x, r => by
    intro h
    simp at h
  | a :: t, 0, x, r => by
    intro h
    simp only [List.drop_zero] at h
    cases h
    exact ⟨rfl, by simp⟩
  | a :: t, i + 1, x, r => by
    intro h
    simp only [List.drop_succ_cons] at h
    obtain ⟨h1, h2⟩ := drop_eq_cons_split t i x r h
    exact ⟨by simpa using h1, by simpa using h2⟩

/-- With pointwise-equal look-ahead flags, the dashed-header loop is
oblivious to the look-ahead range function. -/
theorem dashedLoop_congr (data : List Nat) (lines : List (Nat × Nat))
    (se₁ se₂ : Nat → Nat → Nat)
    (hse : ∀ i, lookFlag data lines se₁ i = lookFlag data lines se₂ i) :
    ∀ (rest : List (Nat × Nat)) (i : Nat) (tagStack : List (List Nat))
      (dictStack : List MetaDict), lines.drop i = rest →
      dashedLoop data lines se₁ rest i tagStack dictStack =
        dashedLoop data lines se₂ rest i tagStack dictStack
  | [], _, _, _ => fun _ => rfl
  | (ls, le) :: rest, i, tagStack, dictStack => by
    intro hdrop
    obtain ⟨hget, hdrop'⟩ := drop_eq_cons_split lines i (ls, le) rest hdrop
    by_cases hskip : (sliceBytes data ls le).isEmpty ∨ ¬ (sliceBytes data ls le).contains 62
    · rw [dashedLoop, if_pos hskip, dashedLoop, if_pos hskip]
      exact dashedLoop_congr data lines se₁ se₂ hse rest (i + 1) tagStack dictStack hdrop'
    · cases hp : parseTagContent (sliceBytes data ls le) with
      | none =>
        simp only [dashedLoop, if_neg hskip, hp]
        exact dashedLoop_congr data lines se₁ se₂ hse rest (i + 1) tagStack dictStack hdrop'
      | some tc =>
        cases tc with
        | mk tg content =>
          simp only [dashedLoop, if_neg hskip, hp]
          by_cases hsl : (lowerBytes tg).head? = some 47
          · simp only [if_pos hsl]
            by_cases hts : tagStack.head? = some (lowerBytes tg).tail
            · simp only [if_pos hts]
              exact dashedLoop_congr data lines se₁ se₂ hse rest (i + 1) _ _ hdrop'
            · simp only [if_neg hts]
              exact dashedLoop_congr data lines se₁ se₂ hse rest (i + 1) _ _ hdrop'
          · simp only [if_neg hsl]
            have hflag := hse i
            simp only [lookFlag, hget, hp] at hflag
            rw [hflag]
            by_cases hc : hasClosingIn data (47 :: lowerBytes tg) (lookWindow lines se₂ i) = true
            · simp only [if_pos hc]
              exact dashedLoop_congr data lines se₁ se₂ hse rest (i + 1) _ _ hdrop'
            · simp only [if_neg hc]
              by_cases hcc : (trimBytes content).isEmpty
              · simp only [if_pos hcc]
                exact dashedLoop_congr data lines se₁ se₂ hse rest (i + 1) _ _ hdrop'
              · simp only [if_neg hcc]
                exact dashedLoop_congr data lines se₁ se₂ hse rest (i + 1) _ _ hdrop'

/-! ## Remaining helper lemmas -/

/-- Lemma: `<TEXT>` and `</TEXT>` cannot match at the same position (their second
bytes differ). -/
theorem textOpen_close_clash {l : List Nat}
    (h1 : leadsWith TEXT_OPEN l = true) (h2 : leadsWith TEXT_CLOSE l = true) : False := by
  cases l with
  | nil => simp [TEXT_OPEN, leadsWith] at h1
  | cons a r =>
    cases r with
    | nil => simp [TEXT_OPEN, leadsWith] at h1
    | cons b r2 =>
      simp only [TEXT_OPEN, TEXT_CLOSE, leadsWith, Bool.and_eq_true, beq_iff_eq] at h1 h2
      omega

/-- The last index returned by the reverse search is the final element when
that element matches. -/
theorem lastIdxWhere_append_last (p : List Nat → Bool) (e : List Nat) (he : p e = true) :
    ∀ xs : List (List Nat), lastIdxWhere p (xs ++ [e]) = some xs.length
  | [] => by simp [lastIdxWhere, he]
  | x :: xs => by
    have ih := lastIdxWhere_append_last p e he xs
    simp only [List.cons_append, lastIdxWhere, List.append_eq, ih, List.length_cons]

/-- Lemma: `detect_submission_type` fails with `UnknownSubmissionType` exactly when
the first line contains none of the three markers as a substring. -/
theorem detect_unknown_iff (data : List Nat) :
    detectSubmissionType data = Except.error ParseErrorKind.unknownSubmissionType ↔
      ((findSub SUBMISSION (firstLineOf data)).isSome = false ∧
       (findSub PRIVACY_MSG (firstLineOf data)).isSome = false ∧
       (findSub SEC_DOCUMENT (firstLineOf data)).isSome = false) := by
  unfold detectSubmissionType
  split_ifs <;> simp [*]

/-- The driver fails with `UnknownSubmissionType` exactly when detection
does (the remainder of the driver cannot produce that error). -/
theorem parse_unknown_iff_detect (data : List Nat) (h : ¬ data.isEmpty) :
    parseSgmlBytes data = Except.error ParseErrorKind.unknownSubmissionType ↔
      detectSubmissionType data = Except.error ParseErrorKind.unknownSubmissionType := by
  unfold parseSgmlBytes
  rw [if_neg h]
  cases hdet : detectSubmissionType data with
  | error e => simp
  | ok st => simp

/-! ## Claim theorems -/

/-- Claim C8: for empty input, `parse_sgml_bytes` returns the
`InvalidContent` error (it neither succeeds, nor returns another error kind,
nor fails to return — the model is a total function). -/
theorem claim_C8_empty_input :
    parseSgmlBytes [] = Except.error ParseErrorKind.invalidContent := rfl

/-- Claim C2: on every (trimmed, non-empty) UU line, `decode_uu_line`
computes the declared count `n = (c0 - 32) & 0x3F`, emits nothing when
`n = 0`, decodes the remaining bytes in groups of four input bytes to three
output bytes with the specified bit layout, emits at most `n` bytes, and on
a line shorter than its declared count emits exactly the output bytes
derivable from the bytes present: it equals the specification-side decoder
`decodeUuLineSpec`, which is defined by exactly those rules.  (Decoding then
continues with subsequent lines: `uuDecodeLines` concatenates the per-line
outputs.) -/
theorem claim_C2_uu_line_decode (line : List Nat) (h : line ≠ []) :
    decodeUuLine line = some (decodeUuLineSpec line) := by
  match line with
  | c0 :: rest => exact decodeUuLine_eq_spec_aux c0 rest

/-- Witness for C2 at the line "M5&AE('1E<W0N" (declared count 45, only
twelve data bytes present). -/
theorem claim_C2_uu_line_decode_witness :
    ([77, 53, 38, 65, 69, 40, 39, 49, 69, 60, 87, 48, 78] : List Nat) ≠ [] ∧
      decodeUuLine [77, 53, 38, 65, 69, 40, 39, 49, 69, 60, 87, 48, 78] =
        some (decodeUuLineSpec [77, 53, 38, 65, 69, 40, 39, 49, 69, 60, 87, 48, 78]) :=
  ⟨by decide, claim_C2_uu_line_decode _ (by decide)⟩

/-- Counterexample to claim C6: in `decode_uu_line` a byte outside the
printable range `[32, 96]` is *not* skipped; it is masked into six bits and
contributes to the output.  On the line `[33, 127, 32, 32]` (declared count
1) the out-of-range byte 127 produces output byte 124; deleting it (which is
what "skipped silently" would mean) yields output byte 0 instead. -/
theorem claim_C6_counterexample :
    decodeUuLine [33, 127, 32, 32] = some [124] ∧
      decodeUuLine [33, 32, 32] = some [0] := by
  constructor <;> rfl

/-- Claim C6 as amended: the silent skipping of bytes outside `[32, 96]`
happens in the string fallback decoder `fallback_decode`
(`src/secsgml/src/uu_decode.rs`): such a byte contributes no bits and leaves
the accumulator state unchanged wherever it occurs; and no byte value makes
the byte-level `decode_uu_line` fail (it returns a value on every non-empty
line). -/
theorem claim_C6_amended :
    (∀ (len b : Nat), (b < 32 ∨ 96 < b) →
      ∀ (pre post : List Nat) (lb lc : Nat) (acc : List Nat),
        fallbackLineLoop len (pre ++ b :: post) lb lc acc =
          fallbackLineLoop len (pre ++ post) lb lc acc) ∧
    (∀ l : List Nat, l ≠ [] → (decodeUuLine l).isSome = true) :=
  ⟨fun len b hb pre post lb lc acc => fallbackLineLoop_skip len b hb pre post lb lc acc,
   decodeUuLine_isSome⟩

/-- Witness for the amended C6: byte 127 is skipped by the fallback loop,
and `decode_uu_line` succeeds on the line `[33]`. -/
theorem claim_C6_amended_witness :
    fallbackLineLoop 1 [127, 77] 0 0 [] = fallbackLineLoop 1 [77] 0 0 [] ∧
      (decodeUuLine [33]).isSome = true :=
  ⟨claim_C6_amended.1 1 127 (by decide) [] [77] 0 0 [],
   claim_C6_amended.2 [33] (by decide)⟩

/-- Counterexample to claim C7: the byte-level `process_text_content`
(`src/src/byte_parser.rs`, the function that makes the UU-vs-raw decision in
`parse_sgml_bytes`) performs no `<PDF>`/`<XBRL>`/`<XML>` wrapper stripping:
on the payload "<PDF>\nhi\n</PDF>" it returns the payload unchanged, still
beginning with the wrapper. -/
theorem claim_C7_counterexample :
    processTextContent pdfPayload = pdfPayload ∧
      leadsWith PDF_TAG (processTextContent pdfPayload) = true := by
  constructor <;> rfl

/-- Claim C7 as amended: wrapper stripping happens in the *line-based*
cleaners (`clean_lines` in `src/src/utils.rs`, applied by the line-based
`process_text_content` before its UU-vs-raw decision): when the first line
trims to one of the special wrappers and the payload ends with the matching
closing line, `clean_lines` returns exactly the body between them.  The
byte-level pipeline performs no such stripping (see the counterexample). -/
theorem claim_C7_amended (w : List Nat) (body : List (List Nat))
    (hw : trimBytes w = PDF_TAG ∨ trimBytes w = XBRL_TAG ∨ trimBytes w = XML_TAG) :
    cleanLines (w :: (body ++ [closeTagFor (trimBytes w)])) = body := by
  have hne : (!(trimBytes w).isEmpty) = true := by
    rcases hw with h | h | h <;> simp [h, PDF_TAG, XBRL_TAG, XML_TAG]
  have hstart : List.findIdx? (fun l => !(trimBytes l).isEmpty)
      (w :: (body ++ [closeTagFor (trimBytes w)])) = some 0 := by
    simp [List.findIdx?_cons, hne]
  have hclose : trimBytes (closeTagFor (trimBytes w)) = closeTagFor (trimBytes w) := by
    rcases hw with h | h | h <;> rw [h] <;> rfl
  have hspec : isSpecialTag (trimBytes w) = true := by
    rcases hw with h | h | h <;> simp [isSpecialTag, h]
  have hlast : lastIdxWhere
      (fun l => trimBytes l == closeTagFor (trimBytes w))
      (w :: (body ++ [closeTagFor (trimBytes w)])) = some (body.length + 1) := by
    have h2 := lastIdxWhere_append_last
      (fun l => trimBytes l == closeTagFor (trimBytes w))
      (closeTagFor (trimBytes w)) (by simp [hclose]) (w :: body)
    simpa using h2
  simp only [cleanLines, hstart, List.drop_zero, List.headD_cons, hspec, if_true]
  simp only [hlast]
  simp only [List.take_succ_cons]
  rw [List.take_left]
  simp

/-- Witness for the amended C7: "<PDF>", one body line "hi", "</PDF>". -/
theorem claim_C7_amended_witness :
    cleanLines [PDF_TAG, [104, 105], closeTagFor (trimBytes PDF_TAG)] = [[104, 105]] :=
  claim_C7_amended PDF_TAG [[104, 105]] (by decide)

/-- Counterexample to claim C9: on "x<SUBMISSION>" the first (and only,
hence first non-empty) line starts with none of the three dialect markers,
yet `parse_sgml_bytes` does not return `UnknownSubmissionType` — it
succeeds, because detection searches for the markers as substrings of the
first line rather than initial segments of the first non-empty line. -/
theorem claim_C9_counterexample :
    parseSgmlBytes markerInsideInput =
        Except.ok ([(docsKey, MetadataValue.list [])], []) ∧
      leadsWith SUBMISSION (firstLineOf markerInsideInput) = false ∧
      leadsWith PRIVACY_MSG (firstLineOf markerInsideInput) = false ∧
      leadsWith SEC_DOCUMENT (firstLineOf markerInsideInput) = false := by
  exact ⟨rfl, rfl, rfl, rfl⟩

/-- Claim C9 as amended: for every non-empty input, `parse_sgml_bytes`
returns `UnknownSubmissionType` iff the *first line* (the bytes before the
first `\n`, even when empty) *contains* none of the three dialect markers as
a substring. -/
theorem claim_C9_amended (data : List Nat) (h : data ≠ []) :
    parseSgmlBytes data = Except.error ParseErrorKind.unknownSubmissionType ↔
      ((findSub SUBMISSION (firstLineOf data)).isSome = false ∧
       (findSub PRIVACY_MSG (firstLineOf data)).isSome = false ∧
       (findSub SEC_DOCUMENT (firstLineOf data)).isSome = false) := by
  rw [parse_unknown_iff_detect data
    (by cases data with
        | nil => exact absurd rfl h
        | cons a l => simp)]
  exact detect_unknown_iff data

/-- Witness for the amended C9 at the input "hello". -/
theorem claim_C9_amended_witness :
    parseSgmlBytes helloInput = Except.error ParseErrorKind.unknownSubmissionType ↔
      ((findSub SUBMISSION (firstLineOf helloInput)).isSome = false ∧
       (findSub PRIVACY_MSG (firstLineOf helloInput)).isSome = false ∧
       (findSub SEC_DOCUMENT (firstLineOf helloInput)).isSome = false) :=
  claim_C9_amended helloInput (by decide)

set_option maxRecDepth 100000 in
/-- Counterexample to claim C10: on a DashedDefault header whose `</FOO>`
sits 100 lines after `<FOO>`, the bounded parser treats `<FOO>` as a
content-less leaf (dropping it entirely) while the unbounded parser opens a
nested dict for it — the two trees differ at the key "foo". -/
theorem claim_C10_counterexample :
    List.lookup fooKey
        (parseDashedHeaderWith dashedSearchEndBounded deepCloseInput deepCloseInput.length) =
      none ∧
    List.lookup fooKey
        (parseDashedHeaderWith dashedSearchEndUnbounded deepCloseInput deepCloseInput.length) =
      some (MetadataValue.dict []) := by
  exact ⟨rfl, rfl⟩

/-- Claim C10 as amended: the bounded and unbounded dashed-header parsers
agree on a header exactly when the 100-line look-ahead window and the
unbounded window give the same closing-tag verdict on every line (which
holds whenever every closing tag appears within 100 lines of its opening
tag); in general — see the counterexample — they differ. -/
theorem claim_C10_amended (data : List Nat) (endPos : Nat)
    (h : ∀ i, lookFlag (data.take endPos) (indexLines (data.take endPos))
                dashedSearchEndBounded i =
              lookFlag (data.take endPos) (indexLines (data.take endPos))
                dashedSearchEndUnbounded i) :
    parseDashedHeaderWith dashedSearchEndBounded data endPos =
      parseDashedHeaderWith dashedSearchEndUnbounded data endPos := by
  show (dashedLoop (data.take endPos) (indexLines (data.take endPos))
      dashedSearchEndBounded (indexLines (data.take endPos)) 0 [] [[]]).getLastD [] =
    (dashedLoop (data.take endPos) (indexLines (data.take endPos))
      dashedSearchEndUnbounded (indexLines (data.take endPos)) 0 [] [[]]).getLastD []
  rw [dashedLoop_congr (data.take endPos) (indexLines (data.take endPos))
    dashedSearchEndBounded dashedSearchEndUnbounded h
    (indexLines (data.take endPos)) 0 [] [[]] (by simp)]

/-- Witness for the amended C10 at the one-line header "<A>x". -/
theorem claim_C10_amended_witness :
    parseDashedHeaderWith dashedSearchEndBounded [60, 65, 62, 120] 4 =
      parseDashedHeaderWith dashedSearchEndUnbounded [60, 65, 62, 120] 4 :=
  claim_C10_amended [60, 65, 62, 120] 4
    (by
      intro i
      match i with
      | 0 => rfl
      | n + 1 => rfl)

/-- Counterexample to claim C5: on "<DOCUMENT><DOCUMENT></DOCUMENT></DOCUMENT>"
the structural index pairs the i-th open with the i-th close, producing the
spans (0, 20) and (10, 31), which overlap (10 < 20) — document spans are not
pairwise non-overlapping. -/
theorem claim_C5_counterexample :
    ¬ List.Pairwise (fun p q : Nat × Nat => p.2 ≤ q.1)
        (buildDocumentIndex overlapInput).document_positions := by
  decide

/-- Claim C5 as amended: every span `(s, e)` in the structural index (both
document spans and text spans) satisfies `s < e ≤ len(buffer)`, and spans of
the same kind are strictly increasing in `start`; they need *not* be
pairwise non-overlapping (see the counterexample). -/
theorem claim_C5_amended (data : List Nat) :
    (∀ p ∈ (buildDocumentIndex data).document_positions,
        p.1 < p.2 ∧ p.2 ≤ data.length) ∧
    List.Pairwise (· < ·)
      ((buildDocumentIndex data).document_positions.map Prod.fst) ∧
    (∀ p ∈ (buildDocumentIndex data).text_positions,
        p.1 < p.2 ∧ p.2 ≤ data.length) ∧
    List.Pairwise (· < ·)
      ((buildDocumentIndex data).text_positions.map Prod.fst) := by
  refine ⟨?_, ?_, ?_, ?_⟩
  · intro p hp
    simp only [buildDocumentIndex] at hp
    have hp2 := List.mem_filter.mp hp
    have hzip := List.of_mem_zip hp2.1
    have hlt : p.1 < p.2 := by simpa using hp2.2
    have hcl := (mem_occList.mp hzip.2).1
    exact ⟨hlt, Nat.le_of_lt hcl⟩
  · simp only [buildDocumentIndex]
    refine (occList_pairwise DOCUMENT_OPEN data).sublist ?_
    exact ((List.filter_sublist _).map Prod.fst).trans
      (map_fst_zip_sublist (occList DOCUMENT_OPEN data) (occList DOCUMENT_CLOSE data))
  · intro p hp
    simp only [buildDocumentIndex] at hp
    obtain ⟨a, ha, hf⟩ := List.mem_filterMap.mp hp
    cases p with
    | mk t c =>
      obtain ⟨hta, hfind, _⟩ := textPosOf_eq_some hf
      subst hta
      obtain ⟨htc, hmatch, _⟩ := findSubFrom_eq_some hfind
      have hopen := (mem_occList.mp ha).2
      have hlen : TEXT_CLOSE.length ≤ (data.drop c).length := leadsWith_length hmatch
      simp only [List.length_drop, TEXT_CLOSE] at hlen
      constructor
      · rcases Nat.eq_or_lt_of_le htc with he | hlt
        · subst he
          exact (textOpen_close_clash hopen hmatch).elim
        · exact hlt
      · simp only [List.length_cons, List.length_nil] at hlen
        omega
  · simp only [buildDocumentIndex]
    refine (occList_pairwise TEXT_OPEN data).sublist ?_
    exact map_fst_filterMap_sublist (textPosOf data)
      (fun a p h => textPosOf_fst h) (occList TEXT_OPEN data)

/-- Witness for the amended C5 on the sample submission: its document span
(13, 50) and text span (32, 42) satisfy the bounds. -/
theorem claim_C5_amended_witness :
    ((13 : Nat) < 50 ∧ (50 : Nat) ≤ sampleSubmission.length) ∧
      ((32 : Nat) < 42 ∧ (42 : Nat) ≤ sampleSubmission.length) :=
  ⟨(claim_C5_amended sampleSubmission).1 (13, 50) (by decide),
   (claim_C5_amended sampleSubmission).2.2.1 (32, 42) (by decide)⟩

/-- Claim C4: (a) every text span recorded by the structural indexer has its
`</TEXT>` followed — after skipping ASCII whitespace — by `</DOCUMENT>`;
(b) a `<TEXT>` whose nearest `</TEXT>` is followed by anything else yields
no text span at all, and a document block whose text lookup starts at that
`<TEXT>` (the driver uses the first `<TEXT>` at or after the document open)
gets no text range, hence is not emitted (contributes to neither output
list, see C1).  In (a) the skipped bytes are those of the code's skip set
`{space, \n, \r}`, which the proof shows coincides with a full ASCII
whitespace skip here because the byte reached is `<`. -/
theorem claim_C4_text_close_acceptance (data : List Nat) (t c : Nat) :
    ((t, c) ∈ (buildDocumentIndex data).text_positions →
      leadsWith DOCUMENT_CLOSE ((data.drop (c + 7)).dropWhile isAsciiWsB) = true) ∧
    (t ∈ occList TEXT_OPEN data →
      findSubFrom TEXT_CLOSE data t = some c →
      leadsWith DOCUMENT_CLOSE ((data.drop (c + 7)).dropWhile isAsciiWsB) = false →
      (∀ c', (t, c') ∉ (buildDocumentIndex data).text_positions) ∧
      (∀ ds de, findSubFrom TEXT_OPEN data ds = some t →
         docTextRange data (buildDocumentIndex data).text_positions ds de = none)) := by
  constructor
  · intro hp
    simp only [buildDocumentIndex] at hp
    obtain ⟨a, ha, hf⟩ := List.mem_filterMap.mp hp
    obtain ⟨hta, hfind, hacc⟩ := textPosOf_eq_some hf
    exact acceptTextClose_ws hacc
  · intro hmem hfind hws
    have hrej : acceptTextClose data c = false := acceptTextClose_of_not_ws hws
    have hnospan : ∀ c', (t, c') ∉ (buildDocumentIndex data).text_positions := by
      intro c' hc'
      simp only [buildDocumentIndex] at hc'
      obtain ⟨a, ha, hf⟩ := List.mem_filterMap.mp hc'
      obtain ⟨hta, hfind', hacc⟩ := textPosOf_eq_some hf
      subst hta
      rw [hfind] at hfind'
      have hcc : c = c' := Option.some.inj hfind'
      subst hcc
      rw [hacc] at hrej
      exact absurd hrej (by simp)
    refine ⟨hnospan, ?_⟩
    intro ds de hds
    simp only [docTextRange, hds]
    rw [lookup_eq_none_of_not_mem ((buildDocumentIndex data).text_positions) t hnospan]
    split_ifs <;> rfl

/-- Witness for C4 on "<TEXT>a</TEXT>x</DOCUMENT>": the rejected close at
position 7 produces no span for the open at 0, and a document starting at 0
would get no text range. -/
theorem claim_C4_text_close_acceptance_witness :
    (0, 7) ∉ (buildDocumentIndex badCloseInput).text_positions ∧
      docTextRange badCloseInput (buildDocumentIndex badCloseInput).text_positions 0 26 =
        none := by
  have H := (claim_C4_text_close_acceptance badCloseInput 0 7).2
    (by decide) (by decide) (by decide)
  exact ⟨H.1 7, H.2 0 26 (by decide)⟩

/-- Shape of a successful parse: after type detection succeeds, the driver
always returns the header dict with the `documents` list inserted alongside
the payload list produced by the document loop. -/
theorem parse_ok_shape (data : List Nat) (hne : ¬ data.isEmpty)
    (st : SubmissionType) (hdet : detectSubmissionType data = Except.ok st) :
    parseSgmlBytes data = Except.ok
      (dictInsertReplace
        (match st with
         | SubmissionType.dashedDefault =>
             parseDashedDefaultHeader data (buildDocumentIndex data).header_end
         | _ => parseTabHeader data (buildDocumentIndex data).header_end st)
        docsKey
        (MetadataValue.list
          (assembleLoop data (buildDocumentIndex data)
            (buildDocumentIndex data).document_positions).1),
       (assembleLoop data (buildDocumentIndex data)
         (buildDocumentIndex data).document_positions).2) := by
  unfold parseSgmlBytes
  rw [if_neg hne]
  simp only [hdet]
  cases st <;> rfl

/-- Claim C1: whenever `parse_sgml_bytes` succeeds, the list stored at
`metadata["documents"]` and the returned document list are the first and
second projections of one per-document list (`emitPair` applied to the
indexed document spans): they have equal length and correspond positionally,
and a document span whose text lookup fails (no accepted `<TEXT>` span)
contributes to neither list (`emitPair` is `none` exactly then). -/
theorem claim_C1_documents_parallel (data : List Nat) (m : MetaDict)
    (docs : List (List Nat))
    (h : parseSgmlBytes data = Except.ok (m, docs)) :
    List.lookup docsKey m =
      some (MetadataValue.list
        (((buildDocumentIndex data).document_positions.filterMap
            (emitPair data (buildDocumentIndex data))).map Prod.fst)) ∧
    docs = ((buildDocumentIndex data).document_positions.filterMap
        (emitPair data (buildDocumentIndex data))).map Prod.snd ∧
    (((buildDocumentIndex data).document_positions.filterMap
        (emitPair data (buildDocumentIndex data))).map Prod.fst).length = docs.length ∧
    (∀ ds de, docTextRange data (buildDocumentIndex data).text_positions ds de = none →
       emitPair data (buildDocumentIndex data) (ds, de) = none) := by
  by_cases he : data.isEmpty
  · rw [parseSgmlBytes, if_pos he] at h
    exact absurd h (by simp)
  · cases hdet : detectSubmissionType data with
    | error e =>
      rw [parseSgmlBytes, if_neg he, hdet] at h
      exact absurd h (by simp)
    | ok st =>
      rw [parse_ok_shape data he st hdet] at h
      have h2 := Except.ok.inj h
      have hm := (congrArg Prod.fst h2).symm
      have hd := (congrArg Prod.snd h2).symm
      simp only at hm hd
      subst hm
      subst hd
      rw [assembleLoop_eq]
      refine ⟨lookup_dictInsertReplace _ _ _, rfl, by simp, ?_⟩
      intro ds de hnone
      simp [emitPair, hnone]

/-- Witness for C1 on the sample submission (one document, payload
"Hi\n"). -/
theorem claim_C1_documents_parallel_witness :
    List.lookup docsKey
        [(docsKey, MetadataValue.list
          [MetadataValue.dict [([116, 121, 112, 101], MetadataValue.text [65])]])] =
      some (MetadataValue.list
        (((buildDocumentIndex sampleSubmission).document_positions.filterMap
            (emitPair sampleSubmission (buildDocumentIndex sampleSubmission))).map
          Prod.fst)) ∧
    ([[72, 105, 10]] : List (List Nat)) =
      ((buildDocumentIndex sampleSubmission).document_positions.filterMap
          (emitPair sampleSubmission (buildDocumentIndex sampleSubmission))).map
        Prod.snd :=
  ⟨(claim_C1_documents_parallel sampleSubmission _ _ rfl).1,
   (claim_C1_documents_parallel sampleSubmission _ _ rfl).2.1⟩
